import Mathlib

/-!
Verification of the Rias research-assistant client (TypeScript sources under
`src/rias_project/rias-research-assistant/`): a shallow embedding in Lean 4 of

* the HTTP client (`services/generationService.ts`),
* the upload / poll / result-tree controller state machine (`App.tsx`),
* the archive builder (`services/zipService.ts`), and
* the preview resolver (`components/FileViewer.tsx`),

together with theorems settling the specification's claims about them.
JavaScript strings are embedded as Lean `String` (a list of characters);
machine-level string helpers (`split`, `replace`, `join`, `endsWith`) are
defined below with JavaScript semantics, since the Lean library versions
differ (for instance, Lean's `String.replace` replaces every occurrence,
while JavaScript `String.prototype.replace` with a string pattern replaces
only the first).
-/

/-! ## JavaScript-style string primitives -/

/-- `startsWithL s pat` is true when `pat` is a prefix of `s` (character lists). -/
def startsWithL : List Char → List Char → Bool
  | _, [] => true
  | [], _ :: _ => false
  | c :: cs, p :: ps => c = p && startsWithL cs ps

/-- `endsWithL s pat` is true when `pat` is a suffix of `s` (character lists). -/
def endsWithL (s pat : List Char) : Bool :=
  startsWithL s.reverse pat.reverse

/-- JavaScript `String.prototype.replace` with a *string* pattern: replaces
only the first occurrence of `pat` (scanning left to right); if `pat` does
not occur, the string is unchanged. -/
def replaceFirstL : List Char → List Char → List Char → List Char
  | [], _, _ => []
  | c :: cs, pat, rep =>
    if startsWithL (c :: cs) pat then rep ++ (c :: cs).drop pat.length
    else c :: replaceFirstL cs pat rep

/-- String-level wrapper for `replaceFirstL`. -/
def replaceFirstS (s pat rep : String) : String :=
  String.mk (replaceFirstL s.data pat.data rep.data)

/-- JavaScript `Array.prototype.join(sep)` on strings. -/
def joinSep (sep : String) : List String → String
  | [] => ""
  | [x] => x
  | x :: y :: xs => x ++ sep ++ joinSep sep (y :: xs)

/-- JavaScript `String.prototype.split(sep)` for a one-character separator:
always returns at least one (possibly empty) segment. -/
def splitOnCharL (sep : Char) : List Char → List (List Char)
  | [] => [[]]
  | c :: cs =>
    match splitOnCharL sep cs with
    | [] => [[c]]
    | h :: t => if c = sep then [] :: h :: t else (c :: h) :: t

/-- JavaScript truthiness of an optional string: `undefined`/`null` and the
empty string are falsy; every other string is truthy. -/
def jsTruthy : Option String → Bool
  | none => false
  | some s => !(s = "")

/-- `jsOrElse d fb` embeds the JavaScript expression `d || fb` on an optional
string `d`: the fallback is taken when `d` is absent *or* falsy (empty). -/
def jsOrElse (d : Option String) (fb : String) : String :=
  match d with
  | some s => if s = "" then fb else s
  | none => fb

/-! ## HTTP client (`services/generationService.ts`) -/

/-- `const API_BASE_URL = "http://localhost:8000"` in both
`generationService.ts` and `App.tsx`. -/
def API_BASE_URL : String := "http://localhost:8000"

/-- Job phase reported by the backend: `status: "processing" | "complete"`. -/
inductive JobPhase where
  | processing
  | complete
deriving DecidableEq, Repr

/-- `interface JobStatus` from `generationService.ts` (field order as in the
source; `tree_url : any` is an optional URL string, `result_url?` optional). -/
structure JobStatus where
  tree_url : Option String
  status : JobPhase
  session_id : String
  result_url : Option String
deriving DecidableEq, Repr

/-- `interface UploadResponse` from `generationService.ts`. -/
structure UploadResponse where
  message : String
  session_id : String
  filename : String
deriving DecidableEq, Repr

/-- A backend HTTP response as observed by the two fetch wrappers: the HTTP
status code, the optional `detail` field of the JSON error body, and the
parsed success body of type `α`. -/
structure BackendResponse (α : Type) where
  status : Nat
  detail : Option String
  body : α

/-- `Response.ok` of the fetch API: status in the inclusive range 200–299. -/
def responseOk (status : Nat) : Bool :=
  200 ≤ status && status ≤ 299

/-- The fallback error message `` `HTTP error! status: ${response.status}` ``. -/
def httpErrorMessage (status : Nat) : String :=
  "HTTP error! status: " ++ toString status

/-- `uploadAndProcessFile` (`generationService.ts` lines 29–52): on a non-ok
response throws `new Error(err.detail || ...)`; otherwise returns the parsed
body. The thrown error is modelled as `Except.error` carrying the message. -/
def uploadAndProcessFile (r : BackendResponse UploadResponse) :
    Except String UploadResponse :=
  if responseOk r.status then Except.ok r.body
  else Except.error (jsOrElse r.detail (httpErrorMessage r.status))

/-- `checkJobStatus` (`generationService.ts` lines 57–75): identical error
handling, returning the parsed `JobStatus` body on success. -/
def checkJobStatus (r : BackendResponse JobStatus) : Except String JobStatus :=
  if responseOk r.status then Except.ok r.body
  else Except.error (jsOrElse r.detail (httpErrorMessage r.status))

/-- `getDownloadUrl` (`generationService.ts` lines 80–82). -/
def getDownloadUrl (sessionId : String) : String :=
  API_BASE_URL ++ "/download-result/" ++ sessionId

/-! ### C6 -/

/-- A fixed non-2xx upload response whose JSON error body carries
`detail: ""` — present, but falsy in JavaScript. -/
def c6BadUpload : BackendResponse UploadResponse :=
  { status := 500, detail := some "",
    body := { message := "", session_id := "", filename := "" } }

/-- C6 counterexample: the claim says the error message is the backend's
`detail` field *verbatim when present*; but on a 500 response whose body has
`detail = ""` (present), `uploadAndProcessFile` reports the HTTP-status
message, not the empty string, because `err.detail || fallback` treats the
empty string as absent. -/
theorem c6_detail_not_verbatim :
    c6BadUpload.detail = some "" ∧
    ¬ responseOk c6BadUpload.status = true ∧
    uploadAndProcessFile c6BadUpload = Except.error "HTTP error! status: 500" ∧
    uploadAndProcessFile c6BadUpload ≠ Except.error "" := by
  refine ⟨rfl, by decide, rfl, ?_⟩
  intro h
  rw [show uploadAndProcessFile c6BadUpload =
        Except.error "HTTP error! status: 500" from rfl] at h
  exact absurd (Except.error.inj h) (by decide)

/-- C6 (amended): `uploadAndProcessFile` and `checkJobStatus` fail exactly
when the response is non-2xx; the error message is the backend `detail`
verbatim when present *and non-empty*, else the HTTP-status-derived message;
on a 2xx response they return the parsed body. -/
theorem c6_error_exactly_on_non2xx
    (ru : BackendResponse UploadResponse) (rs : BackendResponse JobStatus) :
    (responseOk ru.status = true → uploadAndProcessFile ru = Except.ok ru.body) ∧
    (responseOk ru.status = false →
      uploadAndProcessFile ru =
        Except.error (match ru.detail with
          | some s => if s = "" then httpErrorMessage ru.status else s
          | none => httpErrorMessage ru.status)) ∧
    (responseOk rs.status = true → checkJobStatus rs = Except.ok rs.body) ∧
    (responseOk rs.status = false →
      checkJobStatus rs =
        Except.error (match rs.detail with
          | some s => if s = "" then httpErrorMessage rs.status else s
          | none => httpErrorMessage rs.status)) := by
  unfold uploadAndProcessFile checkJobStatus jsOrElse
  refine ⟨fun h => ?_, fun h => ?_, fun h => ?_, fun h => ?_⟩ <;>
    simp [h]

/-- Witness for `c6_error_exactly_on_non2xx` at concrete responses: a 201
upload response succeeds with its body, and a 404 status response with
`detail = "session not found"` fails with that message verbatim. -/
theorem c6_error_exactly_on_non2xx_witness :
    uploadAndProcessFile
      { status := 201, detail := none,
        body := { message := "m", session_id := "s1", filename := "f.pdf" } } =
      Except.ok { message := "m", session_id := "s1", filename := "f.pdf" } ∧
    checkJobStatus
      { status := 404, detail := some "session not found",
        body := { tree_url := none, status := JobPhase.processing,
                  session_id := "s1", result_url := none } } =
      Except.error "session not found" := by
  refine ⟨?_, ?_⟩
  · exact (c6_error_exactly_on_non2xx
      { status := 201, detail := none,
        body := { message := "m", session_id := "s1", filename := "f.pdf" } }
      { status := 404, detail := some "session not found",
        body := { tree_url := none, status := JobPhase.processing,
                  session_id := "s1", result_url := none } }).1 (by decide)
  · exact (c6_error_exactly_on_non2xx
      { status := 201, detail := none,
        body := { message := "m", session_id := "s1", filename := "f.pdf" } }
      { status := 404, detail := some "session not found",
        body := { tree_url := none, status := JobPhase.processing,
                  session_id := "s1", result_url := none } }).2.2.2 (by decide)

/-! ## Preview resolver (`components/FileViewer.tsx`) -/

/-- `const STATIC_BASE_URL = "http://localhost:8000" + '/static-results'`. -/
def STATIC_BASE_URL : String := "http://localhost:8000" ++ "/static-results"

/-- The direct static-file URL `` `${STATIC_BASE_URL}/${filePath}` ``. -/
def fullFileUrl (filePath : String) : String :=
  STATIC_BASE_URL ++ "/" ++ filePath

/-- Characters left unescaped by JavaScript `encodeURIComponent`:
`A–Z a–z 0–9 - _ . ! ~ * ' ( )` (given here by code point). -/
def uriUnreserved (c : Char) : Bool :=
  let n := c.toNat
  (65 ≤ n && n ≤ 90) || (97 ≤ n && n ≤ 122) || (48 ≤ n && n ≤ 57) ||
  n = 45 || n = 95 || n = 46 || n = 33 || n = 126 || n = 42 ||
  n = 39 || n = 40 || n = 41

/-- UTF-8 byte sequence of a code point. -/
def utf8Bytes (n : Nat) : List Nat :=
  if n < 128 then [n]
  else if n < 2048 then [192 + n / 64, 128 + n % 64]
  else if n < 65536 then [224 + n / 4096, 128 + (n / 64) % 64, 128 + n % 64]
  else [240 + n / 262144, 128 + (n / 4096) % 64, 128 + (n / 64) % 64,
        128 + n % 64]

/-- Upper-case hexadecimal digit for `n < 16`. -/
def hexDigit (n : Nat) : Char :=
  if n < 10 then Char.ofNat (48 + n) else Char.ofNat (55 + n)

/-- Percent-escape of one byte, e.g. `%2F`. -/
def percentByte (b : Nat) : String :=
  "%" ++ String.mk [hexDigit (b / 16), hexDigit (b % 16)]

/-- JavaScript `encodeURIComponent`: unreserved characters pass through,
every other character is percent-escaped byte-wise in UTF-8. -/
def encodeURIComponent (s : String) : String :=
  String.join (s.data.map fun c =>
    if uriUnreserved c then String.mk [c]
    else String.join ((utf8Bytes c.toNat).map percentByte))

/-- The three preview strategies of `FileViewer.tsx`: an external
office-viewer iframe URL, the direct file URL, or the download-only view. -/
inductive PreviewStrategy where
  | office (url : String)
  | direct (url : String)
  | downloadOnly
deriving DecidableEq, Repr

/-- `filePath.split('.').pop()?.toLowerCase()` — the extension string the
component dispatches on (for a dot-free path this is the whole path,
exactly as in the source). -/
def fileExtension (filePath : String) : String :=
  String.mk (((splitOnCharL '.' filePath.data).getLastD []).map Char.toLower)

/-- The dispatch of `FileViewer.tsx` lines 16–47, as a pure function of the
file path: office formats route through the Microsoft Office web viewer with
the URL-encoded direct URL as the `src` query parameter; `pdf`, `png`,
`jpg`, `txt`, `json` load the direct URL; everything else falls back to the
download-only view. -/
def fileViewerStrategy (filePath : String) : PreviewStrategy :=
  let url := fullFileUrl filePath
  let ext := fileExtension filePath
  if ["docx", "pptx", "xlsx"].contains ext then
    PreviewStrategy.office
      ("https://view.officeapps.live.com/op/embed.aspx?src=" ++
        encodeURIComponent url)
  else if ext == "pdf" || ["png", "jpg", "txt", "json"].contains ext then
    PreviewStrategy.direct url
  else PreviewStrategy.downloadOnly

/-- The constructor (strategy kind) of a `PreviewStrategy`, forgetting the
URL payload. -/
def strategyKind : PreviewStrategy → Nat
  | PreviewStrategy.office _ => 0
  | PreviewStrategy.direct _ => 1
  | PreviewStrategy.downloadOnly => 2

/-- The three-way table of the specification, written as a function of the
extension string alone and of the direct URL. -/
def specStrategy (ext url : String) : PreviewStrategy :=
  if ext = "docx" ∨ ext = "pptx" ∨ ext = "xlsx" then
    PreviewStrategy.office
      ("https://view.officeapps.live.com/op/embed.aspx?src=" ++
        encodeURIComponent url)
  else if ext = "pdf" ∨ ext = "png" ∨ ext = "jpg" ∨ ext = "txt" ∨
      ext = "json" then
    PreviewStrategy.direct url
  else PreviewStrategy.downloadOnly

/-! ### C8 -/

/-- C8: for every file path the resolver picks exactly the strategy the
specification's three-way extension table picks — office formats go to the
external viewer URL embedding the URL-encoded direct URL, the natively
renderable formats load the direct URL, everything else is download-only —
and the chosen strategy kind depends on the path only through its extension
string. -/
theorem c8_preview_dispatch :
    (∀ filePath : String,
      fileViewerStrategy filePath =
        specStrategy (fileExtension filePath) (fullFileUrl filePath)) ∧
    (∀ p q : String, fileExtension p = fileExtension q →
      strategyKind (fileViewerStrategy p) =
        strategyKind (fileViewerStrategy q)) := by
  have htab : ∀ filePath : String,
      fileViewerStrategy filePath =
        specStrategy (fileExtension filePath) (fullFileUrl filePath) := by
    intro filePath
    unfold fileViewerStrategy specStrategy
    split_ifs <;> simp_all
  refine ⟨htab, fun p q h => ?_⟩
  rw [htab p, htab q, h]
  unfold specStrategy
  split_ifs <;> rfl

/-- Witness for `c8_preview_dispatch`: two distinct paths with the same
`pdf` extension resolve to the same strategy kind. -/
theorem c8_preview_dispatch_witness :
    strategyKind (fileViewerStrategy "run1/paper.pdf") =
      strategyKind (fileViewerStrategy "other/REPORT.PDF") :=
  c8_preview_dispatch.2 "run1/paper.pdf" "other/REPORT.PDF" (by decide)

/-! ## Archive builder serializers (`services/zipService.ts`) -/

/-- One pptx slide record `{ title: string; content: string }`. -/
structure Slide where
  title : String
  content : String
deriving DecidableEq, Repr

/-- The fixed separator `'----------------------------------------\n'`
joined between slides (40 dashes and a newline). -/
def pptxSep : String := "----------------------------------------\n"

/-- The per-slide block `` `Slide ${index + 1}: ${slide.title}\n${slide.content}\n\n` ``
(`n` is the displayed, 1-based slide number). -/
def slideBlock (n : Nat) (s : Slide) : String :=
  "Slide " ++ toString n ++ ": " ++ s.title ++ "\n" ++ s.content ++ "\n\n"

/-- `convertPptxToText` (`zipService.ts` lines 11–15): map each slide with
its index to a block and `join` with the separator. -/
def convertPptxToText (slides : List Slide) : String :=
  joinSep pptxSep (slides.enum.map fun p => slideBlock (p.1 + 1) p.2)

/-- Modelled from the spec: the pptx text laid out slide by slide — the
block of slide number `n`, then, whenever another slide follows, exactly one
separator before the rest, so the separator is inserted exactly `n - 1`
times for `n` slides. -/
def pptxSpecFrom : Nat → List Slide → String
  | _, [] => ""
  | n, [s] => slideBlock n s
  | n, s :: rest => slideBlock n s ++ pptxSep ++ pptxSpecFrom (n + 1) rest

/-- Length of a `join`: the segment lengths plus one separator per gap. -/
theorem joinSep_length (sep : String) (l : List String) :
    (joinSep sep l).length =
      (l.map String.length).sum + (l.length - 1) * sep.length := by
  induction l with
  | nil => simp [joinSep]
  | cons x xs ih =>
    cases xs with
    | nil => simp [joinSep]
    | cons y ys =>
      simp only [joinSep, String.length_append, List.map_cons, List.sum_cons,
        List.length_cons, Nat.add_sub_cancel, Nat.add_mul, Nat.one_mul]
        at ih ⊢
      omega

/-- `joinSep` over enumerated slide blocks agrees with the slide-by-slide
spec layout, from any starting index. -/
theorem joinSep_enumFrom_eq_pptxSpecFrom (l : List Slide) :
    ∀ i : Nat,
      joinSep pptxSep ((List.enumFrom i l).map fun p => slideBlock (p.1 + 1) p.2) =
        pptxSpecFrom (i + 1) l := by
  induction l with
  | nil => intro i; rfl
  | cons s rest ih =>
    intro i
    cases rest with
    | nil => rfl
    | cons s2 r2 =>
      have h2 := ih (i + 1)
      simp only [List.enumFrom, List.map_cons] at h2
      simp only [List.enumFrom, List.map_cons, joinSep, pptxSpecFrom]
      rw [h2]

/-! ### C4 -/

/-- C4: for every ordered sequence of slides, `convertPptxToText` produces,
in order, one block headed `Slide N: <title>` (1-based `N`) followed by that
slide's body per slide, with the fixed separator line inserted between
consecutive slides — so for `n` slides the output carries exactly the `n`
blocks and `n - 1` separator insertions, as the length identity records. -/
theorem c4_pptx_layout (slides : List Slide) :
    convertPptxToText slides = pptxSpecFrom 1 slides ∧
    (convertPptxToText slides).length =
      ((slides.enum.map fun p => slideBlock (p.1 + 1) p.2).map
        String.length).sum + (slides.length - 1) * pptxSep.length := by
  constructor
  · have := joinSep_enumFrom_eq_pptxSpecFrom slides 0
    simpa [convertPptxToText, List.enum] using this
  · have := joinSep_length pptxSep
      (slides.enum.map fun p => slideBlock (p.1 + 1) p.2)
    simpa [convertPptxToText] using this

/-- `join` on character lists (JavaScript `Array.prototype.join`). -/
def joinSepL (sep : List Char) : List (List Char) → List Char
  | [] => []
  | [x] => x
  | x :: y :: xs => x ++ sep ++ joinSepL sep (y :: xs)

/-- `cell.replace(/"/g, '""')`: every quote character is doubled. -/
def escQ : List Char → List Char
  | [] => []
  | c :: cs => if c = '"' then '"' :: '"' :: escQ cs else c :: escQ cs

/-- A serialized CSV cell at character level: opening quote, the
quote-doubled body, closing quote. -/
def escCellL (s : List Char) : List Char :=
  '"' :: (escQ s ++ ['"'])

/-- One serialized CSV row: escaped cells joined by commas. -/
def serializeRowL (cells : List (List Char)) : List Char :=
  joinSepL [','] (cells.map escCellL)

/-- A serialized CSV grid: rows joined by newlines. -/
def serializeGridL (rows : List (List (List Char))) : List Char :=
  joinSepL ['\n'] (rows.map serializeRowL)

/-- `` `"${(cell ?? '').toString().replace(/"/g, '""')}"` `` from
`convertXlsxToCsv`: a null/undefined cell becomes the empty string, quotes
are doubled, and the result is wrapped in quotes. -/
def escapeCsvCell (cell : Option String) : String :=
  "\"" ++ String.mk (escQ (cell.getD "").data) ++ "\""

/-- `convertXlsxToCsv` (`zipService.ts` lines 5–9): each row's cells are
escaped and joined with `','`, rows are joined with `'\n'`. -/
def convertXlsxToCsv (data : List (List (Option String))) : String :=
  joinSep "\n" (data.map fun row => joinSep "," (row.map escapeCsvCell))

/-! ### A standard CSV decoder

Modelled from the spec: the claim's "standard CSV decoder" (no decoder
exists in this repository). Quoted fields follow RFC 4180 — a field opened
by a quote runs to the next quote not doubled, a doubled quote inside means
one literal quote; unquoted fields run to the next comma or newline; fields
are separated by commas, records by newlines. -/

/-- Body of a quoted field after the opening quote: returns the decoded
field and the input remaining after the closing quote; `none` when the
field is unterminated. -/
def parseQuotedBody : List Char → Option (List Char × List Char)
  | [] => none
  | [c] => if c = '"' then some ([], []) else none
  | c :: c2 :: cs =>
    if c = '"' then
      if c2 = '"' then (parseQuotedBody cs).map fun p => ('"' :: p.1, p.2)
      else some ([], c2 :: cs)
    else (parseQuotedBody (c2 :: cs)).map fun p => (c :: p.1, p.2)

/-- An unquoted field: everything up to the next comma or newline. -/
def takeUnquoted : List Char → List Char × List Char
  | [] => ([], [])
  | c :: cs =>
    if c = ',' ∨ c = '\n' then ([], c :: cs)
    else ((takeUnquoted cs).1.cons c, (takeUnquoted cs).2)

/-- One CSV field: quoted when it opens with a quote, unquoted otherwise. -/
def parseField : List Char → Option (List Char × List Char)
  | [] => some ([], [])
  | c :: cs =>
    if c = '"' then parseQuotedBody cs else some (takeUnquoted (c :: cs))

/-- One CSV record: comma-separated fields (fuelled recursion; fuel bounds
the number of fields). -/
def parseRecord : Nat → List Char → Option (List (List Char) × List Char)
  | 0, _ => none
  | fuel + 1, cs =>
    match parseField cs with
    | none => none
    | some (f, rest) =>
      match rest with
      | [] => some ([f], [])
      | c :: rest2 =>
        if c = ',' then
          match parseRecord fuel rest2 with
          | none => none
          | some p => some (f :: p.1, p.2)
        else some ([f], c :: rest2)

/-- A CSV document: newline-separated records (fuel bounds the number of
records). -/
def parseCsv : Nat → List Char → Option (List (List (List Char)))
  | 0, _ => none
  | fuel + 1, cs =>
    match parseRecord (cs.length + 1) cs with
    | none => none
    | some (row, rest) =>
      match rest with
      | [] => some [row]
      | c :: rest2 =>
        if c = '\n' then
          match parseCsv fuel rest2 with
          | none => none
          | some rows => some (row :: rows)
        else none

/-- String-level standard CSV decoder with sufficient fuel. -/
def csvParse (s : String) : Option (List (List String)) :=
  (parseCsv (s.data.length + 1) s.data).map fun rows =>
    rows.map fun r => r.map String.mk

/-! ### Round-trip lemmas -/

/-- Decoding a quoted body that was produced by quote-doubling recovers the
original cell, provided the following input does not open with a quote. -/
theorem parseQuotedBody_escQ (s : List Char) :
    ∀ rest : List Char, rest.head? ≠ some '"' →
      parseQuotedBody (escQ s ++ '"' :: rest) = some (s, rest) := by
  induction s with
  | nil =>
    intro rest h
    cases rest with
    | nil => rfl
    | cons r rs =>
      have hr : ¬ r = '"' := by
        intro hq; exact h (by simp [hq])
      simp [escQ, parseQuotedBody, hr]
  | cons a s' ih =>
    intro rest h
    by_cases ha : a = '"'
    · subst ha
      simp only [escQ, if_pos rfl, List.cons_append]
      simp [parseQuotedBody, ih rest h]
    · simp only [escQ, if_neg ha, List.cons_append]
      have hne : escQ s' ++ '"' :: rest ≠ [] := by simp
      obtain ⟨b, ts, hb⟩ := List.exists_cons_of_ne_nil hne
      rw [hb]
      simp only [parseQuotedBody, if_neg ha]
      rw [← hb, ih rest h]
      rfl

/-- Decoding a serialized cell recovers the cell, provided the following
input does not open with a quote. -/
theorem parseField_escCellL (s rest : List Char) (h : rest.head? ≠ some '"') :
    parseField (escCellL s ++ rest) = some (s, rest) := by
  have hassoc : escCellL s ++ rest = '"' :: (escQ s ++ '"' :: rest) := by
    simp [escCellL]
  rw [hassoc]
  simp [parseField, parseQuotedBody_escQ s rest h]

/-- Every serialized cell takes at least two characters (its two quotes). -/
theorem escCellL_length (s : List Char) : 2 ≤ (escCellL s).length := by
  simp [escCellL]

/-- A serialized row is at least as long as its number of cells. -/
theorem serializeRowL_length (cells : List (List Char)) :
    cells.length ≤ (serializeRowL cells).length := by
  induction cells with
  | nil => simp [serializeRowL, joinSepL]
  | cons c cs ih =>
    cases cs with
    | nil =>
      have := escCellL_length c
      simp [serializeRowL, joinSepL]
      omega
    | cons c2 cs2 =>
      have h1 := escCellL_length c
      simp only [serializeRowL, List.map_cons, joinSepL, List.length_append,
        List.length_cons] at ih ⊢
      omega

/-- Decoding a serialized record recovers its cells, provided the following
input does not open with a quote or a comma and the fuel covers the number
of cells. -/
theorem parseRecord_serializeRowL (cells : List (List Char)) :
    ∀ (fuel : Nat) (rest : List Char), cells ≠ [] →
      cells.length ≤ fuel →
      rest.head? ≠ some '"' → rest.head? ≠ some ',' →
      parseRecord fuel (serializeRowL cells ++ rest) = some (cells, rest) := by
  induction cells with
  | nil => intro fuel rest h; exact absurd rfl h
  | cons c cs ih =>
    intro fuel rest _ hfuel hq hc
    obtain ⟨f, rfl⟩ : ∃ f, fuel = f + 1 := by
      cases fuel with
      | zero => simp at hfuel
      | succ f => exact ⟨f, rfl⟩
    cases cs with
    | nil =>
      rw [show serializeRowL [c] = escCellL c from rfl]
      rw [parseRecord]
      rw [parseField_escCellL c rest hq]
      cases rest with
      | nil => rfl
      | cons r rs =>
        have hr : ¬ r = ',' := by
          intro h; exact hc (by simp [h])
        simp [hr]
    | cons c2 cs2 =>
      have hrow : serializeRowL (c :: c2 :: cs2) ++ rest =
          escCellL c ++ (',' :: (serializeRowL (c2 :: cs2) ++ rest)) := by
        simp [serializeRowL, joinSepL]
      rw [hrow, parseRecord]
      rw [parseField_escCellL c (',' :: (serializeRowL (c2 :: cs2) ++ rest))
        (by simp)]
      have hlen : (c2 :: cs2).length ≤ f := by
        simp only [List.length_cons] at hfuel ⊢
        omega
      have hrec := ih f rest (by simp) hlen hq hc
      simp [hrec]

/-- A serialized grid of non-empty rows is, up to one character, at least as
long as its number of rows. -/
theorem serializeGridL_length (rows : List (List (List Char)))
    (h : ∀ r ∈ rows, r ≠ []) :
    rows.length ≤ (serializeGridL rows).length + 1 := by
  induction rows with
  | nil => simp
  | cons r rs ih =>
    cases rs with
    | nil => simp [serializeGridL, joinSepL]
    | cons r2 rs2 =>
      have h1 : 1 ≤ (serializeRowL r).length := by
        have := serializeRowL_length r
        have hr : r ≠ [] := h r (by simp)
        cases r with
        | nil => exact absurd rfl hr
        | cons x xs => simp only [List.length_cons] at this; omega
      have ih2 := ih (fun q hq => h q (List.mem_cons_of_mem r hq))
      simp only [serializeGridL, List.map_cons, joinSepL, List.length_append,
        List.length_cons, List.length_nil] at ih2 ⊢
      omega

/-- Decoding a serialized grid of non-empty rows recovers the grid, given
fuel covering the number of rows. -/
theorem parseCsv_serializeGridL (rows : List (List (List Char))) :
    ∀ fuel : Nat, rows ≠ [] → (∀ r ∈ rows, r ≠ []) →
      rows.length ≤ fuel →
      parseCsv fuel (serializeGridL rows) = some rows := by
  induction rows with
  | nil => intro fuel h; exact absurd rfl h
  | cons r rs ih =>
    intro fuel _ hne hfuel
    obtain ⟨f, rfl⟩ : ∃ f, fuel = f + 1 := by
      cases fuel with
      | zero => simp at hfuel
      | succ f => exact ⟨f, rfl⟩
    have hr : r ≠ [] := hne r (by simp)
    cases rs with
    | nil =>
      have hfr : r.length ≤ (serializeRowL r).length + 1 := by
        have := serializeRowL_length r; omega
      have hrec := parseRecord_serializeRowL r ((serializeRowL r).length + 1)
        [] hr hfr (by simp) (by simp)
      have hrec2 : parseRecord ((serializeRowL r).length + 1)
          (serializeRowL r) = some (r, []) := by
        simpa using hrec
      rw [show serializeGridL [r] = serializeRowL r from rfl, parseCsv, hrec2]
    | cons r2 rs2 =>
      have hgrid : serializeGridL (r :: r2 :: rs2) =
          serializeRowL r ++ ('\n' :: serializeGridL (r2 :: rs2)) := by
        simp [serializeGridL, joinSepL]
      have hfr : r.length ≤
          (serializeRowL r ++ ('\n' :: serializeGridL (r2 :: rs2))).length
            + 1 := by
        have := serializeRowL_length r
        simp only [List.length_append, List.length_cons]
        omega
      have hrec := parseRecord_serializeRowL r
        ((serializeRowL r ++ ('\n' :: serializeGridL (r2 :: rs2))).length + 1)
        ('\n' :: serializeGridL (r2 :: rs2)) hr hfr
        (by simp) (by simp)
      have htail := ih f (by simp)
        (fun q hq => hne q (List.mem_cons_of_mem r hq))
        (by simp only [List.length_cons] at hfuel ⊢; omega)
      rw [hgrid, parseCsv, hrec]
      simp [htail]

/-- `joinSep` commutes with taking the underlying character list. -/
theorem joinSep_data (sep : String) (l : List String) :
    (joinSep sep l).data = joinSepL sep.data (l.map String.data) := by
  induction l with
  | nil => rfl
  | cons x xs ih =>
    cases xs with
    | nil => rfl
    | cons y ys =>
      simp only [joinSep, List.map_cons, joinSepL, String.data_append,
        List.append_assoc] at ih ⊢
      rw [ih]

/-- The characters of an escaped cell form exactly the escaped cell at
character level. -/
theorem escapeCsvCell_data (cell : Option String) :
    (escapeCsvCell cell).data = escCellL (cell.getD "").data := by
  simp [escapeCsvCell, escCellL, String.data_append]

/-- One row of `convertXlsxToCsv` at character level. -/
theorem convertXlsxToCsv_row_data (row : List (Option String)) :
    (joinSep "," (row.map escapeCsvCell)).data =
      serializeRowL (row.map fun c => (c.getD "").data) := by
  unfold serializeRowL
  rw [joinSep_data]
  simp only [List.map_map]
  congr 1

/-- `convertXlsxToCsv` at character level is exactly the serialized grid. -/
theorem convertXlsxToCsv_data (data : List (List (Option String))) :
    (convertXlsxToCsv data).data =
      serializeGridL (data.map fun row => row.map fun c => (c.getD "").data) := by
  unfold convertXlsxToCsv serializeGridL
  rw [joinSep_data]
  simp only [List.map_map]
  congr 1
  exact List.map_congr_left fun row _ => convertXlsxToCsv_row_data row

/-! ### C3 -/

/-- C3: CSV serialization round-trips — for every non-empty grid whose rows
are non-empty, serializing with `convertXlsxToCsv` (every cell quoted,
embedded quotes doubled, null cells as the empty string) and decoding with
the standard CSV decoder reproduces every original cell string exactly,
with null/undefined cells coming back as the empty string. -/
theorem c3_csv_roundtrip (data : List (List (Option String)))
    (h1 : data ≠ []) (h2 : ∀ row ∈ data, row ≠ []) :
    csvParse (convertXlsxToCsv data) =
      some (data.map fun row => row.map fun c => c.getD "") := by
  unfold csvParse
  rw [convertXlsxToCsv_data]
  have hrows : (data.map fun row => row.map fun c => (c.getD "").data) ≠ [] := by
    simpa using h1
  have hrne : ∀ r ∈ (data.map fun row => row.map fun c => (c.getD "").data),
      r ≠ [] := by
    intro r hr
    obtain ⟨row, hrow, rfl⟩ := List.mem_map.mp hr
    simpa using h2 row hrow
  have hlen := serializeGridL_length
    (data.map fun row => row.map fun c => (c.getD "").data) hrne
  rw [parseCsv_serializeGridL
    (data.map fun row => row.map fun c => (c.getD "").data)
    ((serializeGridL (data.map fun row =>
        row.map fun c => (c.getD "").data)).length + 1)
    hrows hrne hlen]
  simp [List.map_map]

/-- Witness for `c3_csv_roundtrip`: a concrete 2×2 grid with an embedded
quote, a null cell, an empty cell, and a cell containing a comma and a
newline survives the round trip. -/
theorem c3_csv_roundtrip_witness :
    ([[some "a\"b", none], [some "", some "x,y\nz"]] :
        List (List (Option String))) ≠ [] ∧
    (∀ row ∈ ([[some "a\"b", none], [some "", some "x,y\nz"]] :
        List (List (Option String))), row ≠ []) ∧
    csvParse (convertXlsxToCsv [[some "a\"b", none], [some "", some "x,y\nz"]]) =
      some [["a\"b", ""], ["", "x,y\nz"]] :=
  ⟨by decide, by decide,
    c3_csv_roundtrip [[some "a\"b", none], [some "", some "x,y\nz"]]
      (by decide) (by decide)⟩

/-! ## Archive builder tree walk (`services/zipService.ts`, `types.ts`) -/

/-- `enum FileType { DOCX = 'docx', PPTX = 'pptx', XLSX = 'xlsx' }`. -/
inductive FileType where
  | DOCX
  | PPTX
  | XLSX
deriving DecidableEq, Repr

/-- The kind-dependent `content: any` of a `GeneratedFile`: an HTML string
(docx), slide records (pptx), or a grid of nullable cell strings (xlsx). -/
inductive FileContent where
  | html (s : String)
  | slides (l : List Slide)
  | grid (g : List (List (Option String)))
deriving DecidableEq, Repr

/-- The TypeScript cast `file.content as string` for the docx branch. -/
def contentAsHtml : FileContent → String
  | FileContent.html s => s
  | _ => ""

/-- The cast `file.content as { title; content }[]` for the pptx branch. -/
def contentAsSlides : FileContent → List Slide
  | FileContent.slides l => l
  | _ => []

/-- The cast `file.content as string[][]` for the xlsx branch. -/
def contentAsGrid : FileContent → List (List (Option String))
  | FileContent.grid g => g
  | _ => []

/-- `interface GeneratedFile` from `types.ts`. -/
structure GeneratedFile where
  id : String
  name : String
  type : FileType
  content : FileContent
deriving DecidableEq, Repr

/-- `interface TreeNode` from `types.ts`: one node type tagged
`'folder' | 'file'` with optional `children` and `fileData`. The embedding
splits on the tag; `addNodeToZip` reads `children` only behind a `folder`
tag and `fileData` only behind a `file` tag, so the split is
observation-equivalent. -/
inductive TreeNode where
  | folder (id name : String) (children : Option (List TreeNode))
  | file (id name : String) (fileData : Option GeneratedFile)

/-- The `switch (file.type)` of `addNodeToZip` (`zipService.ts` lines
28–44): the pair of the entry's file name (extension rewritten by JavaScript
first-occurrence `replace`) and its serialized content. -/
def zipEntryOf (f : GeneratedFile) : String × String :=
  match f.type with
  | FileType.DOCX =>
    (replaceFirstS f.name ".docx" ".html", contentAsHtml f.content)
  | FileType.PPTX =>
    (replaceFirstS f.name ".pptx" ".txt",
      convertPptxToText (contentAsSlides f.content))
  | FileType.XLSX =>
    (replaceFirstS f.name ".xlsx" ".csv",
      convertXlsxToCsv (contentAsGrid f.content))

mutual

/-- `addNodeToZip` (`zipService.ts` lines 17–47). The JSZip handle is
modelled by the folder path prefix `dir` plus the ordered list of file
entries added: a folder node recurses into `zip.folder(node.name)` when its
`children` are defined; a file node adds one entry exactly when its
`fileData` is present; all other nodes add nothing. -/
def addNodeToZip (dir : String) : TreeNode → List (String × String)
  | TreeNode.folder _ name children =>
    match children with
    | some cs => addNodesToZip (dir ++ name ++ "/") cs
    | none => []
  | TreeNode.file _ _ fileData =>
    match fileData with
    | some f => [(dir ++ (zipEntryOf f).1, (zipEntryOf f).2)]
    | none => []

/-- `tree.forEach(child => addNodeToZip(folder, child))`: the children are
processed in order and their entries concatenated. -/
def addNodesToZip (dir : String) : List TreeNode → List (String × String)
  | [] => []
  | t :: ts => addNodeToZip dir t ++ addNodesToZip dir ts

end

/-- `downloadResultsAsZip` (`zipService.ts` lines 49–58): every root node is
added to a fresh archive; the archive is modelled as its ordered list of
file entries. -/
def downloadResultsAsZip (tree : List TreeNode) : List (String × String) :=
  addNodesToZip "" tree

mutual

/-- Modelled from the spec: the file nodes of one node whose artifact is
present, each with the folder path mirroring the nesting it sits under. -/
def collectPresent (dir : String) : TreeNode → List (String × GeneratedFile)
  | TreeNode.folder _ name children =>
    match children with
    | some cs => collectPresentList (dir ++ name ++ "/") cs
    | none => []
  | TreeNode.file _ _ fileData =>
    match fileData with
    | some f => [(dir, f)]
    | none => []

/-- Modelled from the spec: `collectPresent` over a forest, in order. -/
def collectPresentList (dir : String) :
    List TreeNode → List (String × GeneratedFile)
  | [] => []
  | t :: ts => collectPresent dir t ++ collectPresentList dir ts

end

mutual

/-- Modelled from the spec: the number of file nodes with a present
artifact below one node (file nodes without an artifact count zero). -/
def countPresent : TreeNode → Nat
  | TreeNode.folder _ _ children =>
    match children with
    | some cs => countPresentList cs
    | none => 0
  | TreeNode.file _ _ fileData =>
    match fileData with
    | some _ => 1
    | none => 0

/-- Modelled from the spec: `countPresent` summed over a forest. -/
def countPresentList : List TreeNode → Nat
  | [] => 0
  | t :: ts => countPresent t + countPresentList ts

end

mutual

/-- The entries a node contributes are exactly its present-artifact file
nodes, serialized, at their mirrored folder paths. -/
theorem addNodeToZip_eq_collect (dir : String) (t : TreeNode) :
    addNodeToZip dir t = (collectPresent dir t).map
      (fun p => (p.1 ++ (zipEntryOf p.2).1, (zipEntryOf p.2).2)) :=
  match t with
  | TreeNode.folder _ name children =>
    match children with
    | some cs => by
      rw [show addNodeToZip dir (TreeNode.folder _ name (some cs)) =
            addNodesToZip (dir ++ name ++ "/") cs from rfl,
          show collectPresent dir (TreeNode.folder _ name (some cs)) =
            collectPresentList (dir ++ name ++ "/") cs from rfl]
      exact addNodesToZip_eq_collect (dir ++ name ++ "/") cs
    | none => rfl
  | TreeNode.file _ _ fileData =>
    match fileData with
    | some _ => rfl
    | none => rfl

/-- Forest version of `addNodeToZip_eq_collect`. -/
theorem addNodesToZip_eq_collect (dir : String) (ts : List TreeNode) :
    addNodesToZip dir ts = (collectPresentList dir ts).map
      (fun p => (p.1 ++ (zipEntryOf p.2).1, (zipEntryOf p.2).2)) :=
  match ts with
  | [] => rfl
  | t :: rest => by
    rw [show addNodesToZip dir (t :: rest) =
          addNodeToZip dir t ++ addNodesToZip dir rest from rfl,
        show collectPresentList dir (t :: rest) =
          collectPresent dir t ++ collectPresentList dir rest from rfl,
        List.map_append,
        addNodeToZip_eq_collect dir t, addNodesToZip_eq_collect dir rest]

end

mutual

/-- Each node contributes exactly `countPresent` collected files. -/
theorem collectPresent_length (dir : String) (t : TreeNode) :
    (collectPresent dir t).length = countPresent t :=
  match t with
  | TreeNode.folder _ name children =>
    match children with
    | some cs => by
      rw [show collectPresent dir (TreeNode.folder _ name (some cs)) =
            collectPresentList (dir ++ name ++ "/") cs from rfl,
          show countPresent (TreeNode.folder _ name (some cs)) =
            countPresentList cs from rfl]
      exact collectPresentList_length (dir ++ name ++ "/") cs
    | none => rfl
  | TreeNode.file _ _ fileData =>
    match fileData with
    | some _ => rfl
    | none => rfl

/-- Forest version of `collectPresent_length`. -/
theorem collectPresentList_length (dir : String) (ts : List TreeNode) :
    (collectPresentList dir ts).length = countPresentList ts :=
  match ts with
  | [] => rfl
  | t :: rest => by
    rw [show collectPresentList dir (t :: rest) =
          collectPresent dir t ++ collectPresentList dir rest from rfl,
        List.length_append,
        collectPresent_length dir t, collectPresentList_length dir rest]
    rfl

end

/-! ### C2 -/

/-- C2: the archive built by `downloadResultsAsZip` holds exactly one entry
per file node whose `fileData` artifact is present — the entries are, in
order, the present-artifact file nodes serialized at paths mirroring the
folder nesting — and therefore exactly `countPresent`-many entries in
total, with file nodes lacking an artifact contributing none. -/
theorem c2_archive_entries (tree : List TreeNode) :
    downloadResultsAsZip tree = (collectPresentList "" tree).map
      (fun p => (p.1 ++ (zipEntryOf p.2).1, (zipEntryOf p.2).2)) ∧
    (downloadResultsAsZip tree).length = countPresentList tree := by
  refine ⟨addNodesToZip_eq_collect "" tree, ?_⟩
  rw [show downloadResultsAsZip tree = addNodesToZip "" tree from rfl,
    addNodesToZip_eq_collect "" tree, List.length_map]
  exact collectPresentList_length "" tree

/-! ### C5 -/

/-- Any list is a prefix of itself followed by anything. -/
theorem startsWithL_append (p r : List Char) :
    startsWithL (p ++ r) p = true := by
  induction p with
  | nil => cases r <;> rfl
  | cons c cs ih => simp [startsWithL, ih]

/-- Any list ends with its own suffix. -/
theorem endsWithL_append (a b : List Char) : endsWithL (a ++ b) b = true := by
  unfold endsWithL
  rw [List.reverse_append]
  exact startsWithL_append b.reverse a.reverse

/-- When the first occurrence of a (non-empty) pattern in `stem ++ pat` is
the final one, first-occurrence replacement rewrites exactly the suffix. -/
theorem replaceFirstL_suffix (pat rep : List Char) (hp : pat ≠ []) :
    ∀ stem : List Char,
      (∀ i < stem.length,
        startsWithL ((stem ++ pat).drop i) pat = false) →
      replaceFirstL (stem ++ pat) pat rep = stem ++ rep := by
  intro stem
  induction stem with
  | nil =>
    intro _
    obtain ⟨c, cs, rfl⟩ := List.exists_cons_of_ne_nil hp
    have hself : startsWithL (c :: cs) (c :: cs) = true := by
      simpa using startsWithL_append (c :: cs) []
    simp [replaceFirstL, hself, List.drop_length]
  | cons a st ih =>
    intro hfirst
    have h0 : startsWithL (a :: (st ++ pat)) pat = false := by
      have := hfirst 0 (by simp)
      simpa using this
    rw [show (a :: st) ++ pat = a :: (st ++ pat) from rfl, replaceFirstL,
      if_neg (by simp [h0])]
    rw [ih (fun i hi => by
      have := hfirst (i + 1) (by simp only [List.length_cons]; omega)
      simpa using this)]
    rfl

/-- The docx file whose name ends in `.docx` but also contains an earlier
occurrence of `.docx`. -/
def c5File : GeneratedFile :=
  { id := "f1", name := "a.docx.docx", type := FileType.DOCX,
    content := FileContent.html "<p>x</p>" }

/-- C5 counterexample: the claim says every docx entry name ending in
`.docx` is rewritten to end in `.html`; but JavaScript `replace` rewrites
only the *first* occurrence, so the name `a.docx.docx` becomes
`a.html.docx`, which still ends in `.docx` and not in `.html` (the HTML
content is stored unchanged). -/
theorem c5_first_occurrence_only :
    endsWithL c5File.name.data ".docx".data = true ∧
    (zipEntryOf c5File).1 = "a.html.docx" ∧
    endsWithL (zipEntryOf c5File).1.data ".html".data = false ∧
    (zipEntryOf c5File).2 = "<p>x</p>" := by
  refine ⟨by decide, by decide, by decide, rfl⟩

/-- C5 (amended): a docx-typed artifact's entry stores the HTML string
content unchanged, and the entry name replaces the *first* occurrence of
`.docx` by `.html`; in particular, for every file name ending in `.docx`
whose only `.docx` occurrence is that final extension, the entry name is
the stem followed by `.html` and so ends in `.html`. -/
theorem c5_docx_entry (f : GeneratedFile) (stem : List Char) (h : String)
    (ht : f.type = FileType.DOCX)
    (hc : f.content = FileContent.html h)
    (hn : f.name.data = stem ++ ".docx".data)
    (hfirst : ∀ i < stem.length,
      startsWithL ((stem ++ ".docx".data).drop i) ".docx".data = false) :
    (zipEntryOf f).2 = h ∧
    (zipEntryOf f).1.data = stem ++ ".html".data ∧
    endsWithL (zipEntryOf f).1.data ".html".data = true := by
  have hname : (zipEntryOf f).1.data = stem ++ ".html".data := by
    rw [show zipEntryOf f =
          (replaceFirstS f.name ".docx" ".html", contentAsHtml f.content) by
        rw [zipEntryOf, ht]]
    rw [show (replaceFirstS f.name ".docx" ".html").data =
          replaceFirstL f.name.data ".docx".data ".html".data from rfl, hn]
    exact replaceFirstL_suffix ".docx".data ".html".data (by decide)
      stem hfirst
  refine ⟨?_, hname, ?_⟩
  · rw [show zipEntryOf f =
          (replaceFirstS f.name ".docx" ".html", contentAsHtml f.content) by
        rw [zipEntryOf, ht]]
    rw [show (replaceFirstS f.name ".docx" ".html",
          contentAsHtml f.content).2 = contentAsHtml f.content from rfl, hc]
    rfl
  · rw [hname]
    exact endsWithL_append stem ".html".data

/-- A well-behaved docx artifact: `.docx` occurs only as the extension. -/
def c5GoodFile : GeneratedFile :=
  { id := "g1", name := "report.docx", type := FileType.DOCX,
    content := FileContent.html "<p>hi</p>" }

/-- Witness for `c5_docx_entry`: the docx artifact `report.docx` with body
`<p>hi</p>` yields the entry `report.html` with the content unchanged. -/
theorem c5_docx_entry_witness :
    (zipEntryOf c5GoodFile).2 = "<p>hi</p>" ∧
    (zipEntryOf c5GoodFile).1.data = "report".data ++ ".html".data ∧
    endsWithL (zipEntryOf c5GoodFile).1.data ".html".data = true :=
  c5_docx_entry c5GoodFile "report".data "<p>hi</p>" rfl rfl (by decide)
    (by decide)

/-! ## Poll-timer lifecycle (`App.tsx`)

`App.tsx` keeps one module-level handle `let pollInterval` for the repeating
poll timer. `handleGenerate` runs `if (pollInterval) clearInterval(...)` in
its synchronous prefix (line 152) and assigns `pollInterval = setInterval(...)`
only in its continuation after `await uploadAndProcessFile(file)` resolves
(line 160), without clearing again. The model tracks the set of operating
interval timers by identity: `clearInterval` removes the retained id from
the active ones (a no-op on an already-cleared id, as in the browser), and
each `setInterval` creates a fresh id, makes it active and overwrites the
retained handle. -/

/-- The timer-visible state of `App.tsx`: the `pollInterval` variable, the
identities of the operating interval timers, and a fresh-id counter. -/
structure TimerState where
  retained : Option Nat
  active : List Nat
  nextId : Nat
deriving DecidableEq, Repr

/-- The two timer-relevant event-loop steps of `handleGenerate`: its
synchronous prefix up to the upload `await` (which clears the retained
timer), and the resumption after the upload resolves (which installs a
fresh interval timer). -/
inductive GenEvent where
  | submitStart
  | uploadResolve
deriving DecidableEq, Repr

/-- One event-loop step of the timer model. -/
def genStep (st : TimerState) : GenEvent → TimerState
  | GenEvent.submitStart =>
    match st.retained with
    | some t => { st with active := st.active.erase t }
    | none => st
  | GenEvent.uploadResolve =>
    { retained := some st.nextId, active := st.active ++ [st.nextId],
      nextId := st.nextId + 1 }

/-- The initial `App.tsx` module state: `pollInterval = null`, no timers. -/
def initialTimers : TimerState :=
  { retained := none, active := [], nextId := 0 }

/-- Run a sequence of event-loop steps from the initial state. -/
def genRun (es : List GenEvent) : TimerState :=
  es.foldl genStep initialTimers

/-! ### C1 -/

/-- C1: the claim fails on the code. In the interleaving in which `submit`
is triggered twice before the first upload resolves — both synchronous
prefixes run (each finds no retained timer to clear), then both upload
continuations install a timer — two poll timers are operating after both
submissions settle, not one; the first timer's handle is overwritten, so it
can never be cleared. The sequential interleaving (second submit after the
first upload resolved) does keep exactly one timer, clearing the prior one
first. -/
theorem c1_double_submit_two_timers :
    (genRun [GenEvent.submitStart, GenEvent.submitStart,
      GenEvent.uploadResolve, GenEvent.uploadResolve]).active = [0, 1] ∧
    (genRun [GenEvent.submitStart, GenEvent.submitStart,
      GenEvent.uploadResolve, GenEvent.uploadResolve]).active.length ≠ 1 ∧
    (genRun [GenEvent.submitStart, GenEvent.submitStart,
      GenEvent.uploadResolve, GenEvent.uploadResolve]).retained = some 1 ∧
    (genRun [GenEvent.submitStart, GenEvent.uploadResolve,
      GenEvent.submitStart, GenEvent.uploadResolve]).active = [1] := by
  decide

/-! ## Upload / poll / result-tree controller (`App.tsx`) -/

/-- `'file' | 'folder'` tag of a result-tree node. -/
inductive FileKind where
  | file
  | folder
deriving DecidableEq, Repr

/-- `interface FileTree` from `types.ts`: name, tag, optional `path` (files)
and optional `children` (folders). -/
inductive FileTree where
  | node (name : String) (type : FileKind) (path : Option String)
      (children : Option (List FileTree))

/-- The React state of the `App` component, plus `pollActive` standing for
"the `pollInterval` timer is installed and not cleared" (file identities are
modelled by their names). -/
structure AppState where
  uploadedFiles : List String
  isLoading : Bool
  error : Option String
  fileTree : Option (List FileTree)
  statusMessage : Option String
  downloadUrl : Option String
  selectedFile : Option String
  pollActive : Bool

/-- Environment outcome of one `checkJobStatus` call in the poll callback:
a parsed `JobStatus` body, or a thrown error. -/
inductive PollResult where
  | ok (s : JobStatus)
  | fail

/-- Environment outcome of the secondary `fetch(tree_url)`: parsed tree
JSON, or a thrown error. -/
inductive TreeFetchResult where
  | ok (t : List FileTree)
  | fail

/-- Environment outcome of `uploadAndProcessFile`: a parsed
`UploadResponse`, or a thrown error with its message. -/
inductive UploadResult where
  | ok (resp : UploadResponse)
  | fail (msg : String)

/-- The poll loop of `handleGenerate` (`App.tsx` lines 160–192): each
interval tick consumes the next scripted `PollResult`; `complete` clears
the interval, ends loading, records the download URL and — when `tree_url`
is truthy — performs the one tree fetch (its failure only sets the advisory
error); `processing` re-arms; a thrown poll error clears the interval and
sets the polling error. Returns the final state, the number of status
calls, and the number of tree-URL calls. -/
def runPolls (sessionId : String) (treeRes : TreeFetchResult) :
    AppState → List PollResult → AppState × Nat × Nat
  | st, [] => (st, 0, 0)
  | st, PollResult.fail :: _ =>
    ({ st with
        pollActive := false,
        isLoading := false,
        error := some "Error checking job status. Please try again." }, 1, 0)
  | st, PollResult.ok j :: rest =>
    match j.status with
    | JobPhase.complete =>
      let st1 := { st with
        pollActive := false,
        isLoading := false,
        statusMessage := some "Processing complete!",
        downloadUrl := some (getDownloadUrl sessionId) }
      if jsTruthy j.tree_url then
        match treeRes with
        | TreeFetchResult.ok t => ({ st1 with fileTree := some t }, 1, 1)
        | TreeFetchResult.fail =>
          ({ st1 with
              error := some
                "Processing complete, but failed to load results tree." },
            1, 1)
      else (st1, 1, 0)
    | JobPhase.processing =>
      let r := runPolls sessionId treeRes
        { st with
          statusMessage :=
            some ("Processing... (Job ID: " ++ sessionId ++ ")") } rest
      (r.1, r.2.1 + 1, r.2.2)

/-- `handleGenerate` (`App.tsx` lines 141–199) against a scripted
environment: no-op without a selected file; otherwise the synchronous reset,
then either the upload failure path or the poll loop under the fresh
interval timer. -/
def handleGenerate (upload : UploadResult) (polls : List PollResult)
    (treeRes : TreeFetchResult) (st : AppState) : AppState × Nat × Nat :=
  match st.uploadedFiles with
  | [] => (st, 0, 0)
  | _ :: _ =>
    let st1 := { st with
      isLoading := true,
      statusMessage := some "Uploading file...",
      downloadUrl := none,
      error := none,
      fileTree := none,
      selectedFile := none,
      pollActive := false }
    match upload with
    | UploadResult.fail msg =>
      ({ st1 with
          isLoading := false,
          error := some ("Upload failed: " ++ msg) }, 0, 0)
    | UploadResult.ok resp =>
      runPolls resp.session_id treeRes
        { st1 with
          statusMessage :=
            some ("Processing... (Job ID: " ++ resp.session_id ++ ")"),
          pollActive := true } polls

/-- `handleFilesChange` (`App.tsx` lines 112–121): records the new
selection, clears download URL, error, status message, file tree and
selected file, and clears the pending interval timer — and nothing else. -/
def handleFilesChange (files : List String) (st : AppState) : AppState :=
  { st with
    uploadedFiles := files,
    downloadUrl := none,
    error := none,
    statusMessage := none,
    fileTree := none,
    selectedFile := none,
    pollActive := false }

/-! ### C10 -/

/-- C10: a new file selection resets `downloadUrl`, `error`,
`statusMessage`, `fileTree` and `selectedFile`, cancels any pending poll
timer, records the new selection — and leaves `isLoading` exactly as it
was, so a reset during a loading job keeps `isLoading` true although the
timer that could later clear it has been cancelled. -/
theorem c10_reset_keeps_isLoading (files : List String) (st : AppState) :
    (handleFilesChange files st).downloadUrl = none ∧
    (handleFilesChange files st).error = none ∧
    (handleFilesChange files st).statusMessage = none ∧
    (handleFilesChange files st).fileTree = none ∧
    (handleFilesChange files st).selectedFile = none ∧
    (handleFilesChange files st).pollActive = false ∧
    (handleFilesChange files st).uploadedFiles = files ∧
    (handleFilesChange files st).isLoading = st.isLoading :=
  ⟨rfl, rfl, rfl, rfl, rfl, rfl, rfl, rfl⟩

/-! ### C7 -/

/-- C7: when the poll returns `complete` with a truthy `tree_url` and the
secondary tree fetch fails, the machine still completes: the interval is
cleared (no further scripted polls are consumed), loading ends,
`downloadUrl` is set to `getDownloadUrl sid` and kept, the status message
reads complete, and only the advisory tree-load error is surfaced. -/
theorem c7_tree_failure_still_complete
    (st : AppState) (f : String) (fs : List String)
    (hfiles : st.uploadedFiles = f :: fs)
    (msg sid fn turl sid2 : String) (hturl : turl ≠ "")
    (ru : Option String) (rest : List PollResult) :
    handleGenerate (UploadResult.ok (UploadResponse.mk msg sid fn))
      (PollResult.ok (JobStatus.mk (some turl) JobPhase.complete sid2 ru)
        :: rest)
      TreeFetchResult.fail st =
    ({ st with
        uploadedFiles := st.uploadedFiles,
        isLoading := false,
        error := some "Processing complete, but failed to load results tree.",
        fileTree := none,
        statusMessage := some "Processing complete!",
        downloadUrl := some (getDownloadUrl sid),
        selectedFile := none,
        pollActive := false }, 1, 1) := by
  obtain ⟨uf, il, er, ft, sm, du, sf, pa⟩ := st
  replace hfiles : uf = f :: fs := hfiles
  subst hfiles
  simp [handleGenerate, runPolls, jsTruthy, hturl]

/-- A state with one selected file, as left by `handleFilesChange`. -/
def c7StartState : AppState :=
  handleFilesChange ["paper.pdf"]
    { uploadedFiles := [], isLoading := false, error := none,
      fileTree := none, statusMessage := none, downloadUrl := none,
      selectedFile := none, pollActive := false }

/-- Witness for `c7_tree_failure_still_complete` at a concrete session. -/
theorem c7_tree_failure_still_complete_witness :
    handleGenerate (UploadResult.ok (UploadResponse.mk "ok" "s42" "paper.pdf"))
      [PollResult.ok
        (JobStatus.mk (some "/tree/s42") JobPhase.complete "s42" none)]
      TreeFetchResult.fail c7StartState =
    ({ c7StartState with
        uploadedFiles := c7StartState.uploadedFiles,
        isLoading := false,
        error := some "Processing complete, but failed to load results tree.",
        fileTree := none,
        statusMessage := some "Processing complete!",
        downloadUrl := some (getDownloadUrl "s42"),
        selectedFile := none,
        pollActive := false }, 1, 1) :=
  c7_tree_failure_still_complete c7StartState "paper.pdf" [] rfl
    "ok" "s42" "paper.pdf" "/tree/s42" "s42" (by decide) none []

/-! ### C9 -/

/-- C9: submit, two `processing` polls, then `complete` with a truthy
`tree_url`: exactly 3 status calls and exactly 1 tree call are made
(further scripted polls are never consumed), and the final state carries
`downloadUrl = getDownloadUrl sid` — the deterministic URL of the captured
session id — together with the fetched tree. -/
theorem c9_scenario_three_polls
    (st : AppState) (f : String) (fs : List String)
    (hfiles : st.uploadedFiles = f :: fs)
    (msg sid fn turl sid2 : String) (hturl : turl ≠ "")
    (j1 j2 : JobStatus)
    (h1 : j1.status = JobPhase.processing)
    (h2 : j2.status = JobPhase.processing)
    (ru : Option String) (tree : List FileTree) (rest : List PollResult) :
    handleGenerate (UploadResult.ok (UploadResponse.mk msg sid fn))
      (PollResult.ok j1 :: PollResult.ok j2 ::
        PollResult.ok (JobStatus.mk (some turl) JobPhase.complete sid2 ru)
        :: rest)
      (TreeFetchResult.ok tree) st =
    ({ st with
        uploadedFiles := st.uploadedFiles,
        isLoading := false,
        error := none,
        fileTree := some tree,
        statusMessage := some "Processing complete!",
        downloadUrl := some (getDownloadUrl sid),
        selectedFile := none,
        pollActive := false }, 3, 1) := by
  obtain ⟨uf, il, er, ft, sm, du, sf, pa⟩ := st
  replace hfiles : uf = f :: fs := hfiles
  subst hfiles
  obtain ⟨tu1, s1, si1, ru1⟩ := j1
  replace h1 : s1 = JobPhase.processing := h1
  subst h1
  obtain ⟨tu2, s2, si2, ru2⟩ := j2
  replace h2 : s2 = JobPhase.processing := h2
  subst h2
  simp [handleGenerate, runPolls, jsTruthy, hturl]

/-- Witness for `c9_scenario_three_polls` at a concrete session. -/
theorem c9_scenario_three_polls_witness :
    handleGenerate (UploadResult.ok (UploadResponse.mk "ok" "s7" "paper.pdf"))
      [PollResult.ok (JobStatus.mk none JobPhase.processing "s7" none),
        PollResult.ok (JobStatus.mk none JobPhase.processing "s7" none),
        PollResult.ok (JobStatus.mk (some "/tree/s7") JobPhase.complete
          "s7" none)]
      (TreeFetchResult.ok []) c7StartState =
    ({ c7StartState with
        uploadedFiles := c7StartState.uploadedFiles,
        isLoading := false,
        error := none,
        fileTree := some [],
        statusMessage := some "Processing complete!",
        downloadUrl := some (getDownloadUrl "s7"),
        selectedFile := none,
        pollActive := false }, 3, 1) :=
  c9_scenario_three_polls c7StartState "paper.pdf" [] rfl
    "ok" "s7" "paper.pdf" "/tree/s7" "s7" (by decide)
    (JobStatus.mk none JobPhase.processing "s7" none)
    (JobStatus.mk none JobPhase.processing "s7" none)
    rfl rfl none [] []
